import Mathlib

/-!
Verification of the `syx` command-line SysEx tool against its specification.

The CLI layer (`run_identify`, `run_sections`, `run_receive`, `run_make`)
is embedded from `src/main.rs`.  The core message engine (the `syxpack`
crate: `Message`, `Manufacturer`, `message_count`, `split_messages`) is not
part of the repository's source tree, so those definitions are modelled
from the specification's description of the Message Parser, Message
Splitter, Message Codec and Manufacturer Value components.

Bytes are modelled as `Nat` values; all byte values produced stay below
256 because the parsers validate ranges and `u8` token decoding checks
the 255 bound explicitly.
-/

/-- Errors of the core, after the spec's error taxonomy:
`MalformedFraming`, `TruncatedHeader`, and the manufacturer validation
failures. -/
inductive SyxError where
  | malformedFraming
  | truncatedHeader
  | invalidManufacturerLength
  deriving DecidableEq, Repr

/-- Modelled from the spec: the `kind` field of a Universal message
"distinguishes realtime/non-realtime universal messages". -/
inductive UniversalKind where
  | nonRealTime
  | realTime
  deriving DecidableEq, Repr

/-- The wire byte of a universal kind: 0x7E non-realtime, 0x7F realtime. -/
def UniversalKind.toByte : UniversalKind → Nat
  | .nonRealTime => 0x7E
  | .realTime => 0x7F

/-- Modelled from the spec: `Message` is "a tagged union over exactly two
variants", `ManufacturerSpecific { manufacturer, payload }` and
`Universal { kind, target, sub_id1, sub_id2, payload }`.  The manufacturer
is carried as its code bytes (the validated 1- or 3-byte identifier). -/
inductive Message where
  | manufacturerSpecific (manufacturer : List Nat) (payload : List Nat)
  | universal (kind : UniversalKind) (target sub_id1 sub_id2 : Nat)
      (payload : List Nat)
  deriving DecidableEq, Repr

instance {ε α : Type} [DecidableEq ε] [DecidableEq α] : DecidableEq (Except ε α) :=
  fun a b =>
    match a, b with
    | .ok x, .ok y =>
        if h : x = y then .isTrue (by rw [h]) else .isFalse (by simp [h])
    | .error x, .error y =>
        if h : x = y then .isTrue (by rw [h]) else .isFalse (by simp [h])
    | .ok _, .error _ => .isFalse (by simp)
    | .error _, .ok _ => .isFalse (by simp)

namespace Manufacturer

/-- Modelled from the spec: `Manufacturer::new(bytes)` accepts a byte
sequence of length 1 or 3; if length 3 the first byte must be 0x00; if
length 1 the value must be in 0x01–0x7F; any other length fails.  On
success the exact code bytes are kept (`to_bytes` is the identity on
them). -/
def new (bytes : List Nat) : Except SyxError (List Nat) :=
  match bytes with
  | [b] =>
      if 1 ≤ b ∧ b ≤ 0x7F then .ok [b]
      else .error .invalidManufacturerLength
  | [b0, b1, b2] =>
      if b0 = 0 then .ok [b0, b1, b2]
      else .error .invalidManufacturerLength
  | _ => .error .invalidManufacturerLength

end Manufacturer

/-- Classification of the bytes strictly between the 0xF0/0xF7 delimiters,
modelled from the spec's parsing algorithm: first inner byte 0x7E/0x7F
selects the Universal variant (then `target`, `sub_id1`, `sub_id2`, rest
payload, `TruncatedHeader` when fewer than four header bytes remain);
first inner byte 0x00 selects an extended 3-byte manufacturer code; any
other first byte is a standard 1-byte code validated by
`Manufacturer.new`. -/
def classifyInner (inner : List Nat) : Except SyxError Message :=
  match inner with
  | [] => .error .truncatedHeader
  | first :: rest =>
      if first = 0x7E ∨ first = 0x7F then
        match rest with
        | t :: s1 :: s2 :: payload =>
            .ok (.universal
              (if first = 0x7E then .nonRealTime else .realTime) t s1 s2 payload)
        | _ => .error .truncatedHeader
      else if first = 0x00 then
        match rest with
        | a :: b :: payload =>
            match Manufacturer.new [0x00, a, b] with
            | .ok code => .ok (.manufacturerSpecific code payload)
            | .error e => .error e
        | _ => .error .truncatedHeader
      else
        match Manufacturer.new [first] with
        | .ok code => .ok (.manufacturerSpecific code rest)
        | .error e => .error e

namespace Message

/-- Modelled from the spec: `Message::new` (the Parser) validates that the
buffer holds at least the two framing bytes with first byte 0xF0 and last
byte 0xF7 (`MalformedFraming` otherwise), then classifies the bytes in
between via `classifyInner`. -/
def new (buffer : List Nat) : Except SyxError Message :=
  match buffer with
  | f0 :: rest =>
      if f0 = 0xF0 ∧ rest.getLast? = some 0xF7 then
        classifyInner rest.dropLast
      else .error .malformedFraming
  | [] => .error .malformedFraming

/-- Modelled from the spec: the Codec emits 0xF0, then the
variant-specific header bytes (the manufacturer code bytes, or
`[kind, target, sub_id1, sub_id2]`), then the payload verbatim, then
0xF7. -/
def to_bytes : Message → List Nat
  | .manufacturerSpecific code payload => 0xF0 :: (code ++ payload ++ [0xF7])
  | .universal kind target s1 s2 payload =>
      0xF0 :: kind.toByte :: target :: s1 :: s2 :: (payload ++ [0xF7])

/-- A `Message` value is constructible exactly when its manufacturer code
(if any) passes `Manufacturer.new`; Universal messages carry only plain
bytes and an enum kind, so they are always constructible. -/
def constructible : Message → Bool
  | .manufacturerSpecific code _ => (Manufacturer.new code).isOk
  | .universal _ _ _ _ _ => true

/-- A manufacturer-specific message whose 1-byte code is 0x7E or 0x7F:
its serialized form starts with a universal discriminator byte, so the
parser reads it back as (a truncated) Universal message, not as the
original manufacturer message. -/
def universalShadowed : Message → Bool
  | .manufacturerSpecific code _ =>
      if code = [0x7E] ∨ code = [0x7F] then true else false
  | .universal _ _ _ _ _ => false

end Message

/-- Modelled from the spec: `message_count` scans for terminator bytes
while tracking whether the scan is currently inside an open message
(started by the most recent unterminated 0xF0); bytes outside any span
are ignored. -/
def message_count_aux : List Nat → Bool → Nat
  | [], _ => 0
  | b :: rest, inside =>
      if b = 0xF0 then message_count_aux rest true
      else if b = 0xF7 ∧ inside = true then message_count_aux rest false + 1
      else message_count_aux rest inside

/-- Modelled from the spec: counts non-overlapping 0xF0 … 0xF7 spans. -/
def message_count (buffer : List Nat) : Nat :=
  message_count_aux buffer false

/-- Modelled from the spec: `split_messages` scans the buffer, and for
each complete 0xF0..0xF7 span found in order emits the inclusive slice;
the accumulator restarts at the most recent 0xF0, and a dangling
unterminated initiator at end-of-buffer is dropped silently. -/
def split_messages_aux : List Nat → Option (List Nat) → List (List Nat)
  | [], _ => []
  | b :: rest, cur =>
      if b = 0xF0 then split_messages_aux rest (some [0xF0])
      else if b = 0xF7 then
        match cur with
        | some acc => (acc ++ [0xF7]) :: split_messages_aux rest none
        | none => split_messages_aux rest none
      else
        match cur with
        | some acc => split_messages_aux rest (some (acc ++ [b]))
        | none => split_messages_aux rest none

/-- Modelled from the spec: the ordered complete framed slices of a
buffer. -/
def split_messages (buffer : List Nat) : List (List Nat) :=
  split_messages_aux buffer none

/-- Whether a scan of the buffer ends inside an open (unterminated)
message: `false` means every initiator found a matching terminator. -/
def open_after : List Nat → Bool → Bool
  | [], inside => inside
  | b :: rest, inside =>
      if b = 0xF0 then open_after rest true
      else if b = 0xF7 then open_after rest false
      else open_after rest inside

/-- Every 0xF0 initiator in the buffer has a matching 0xF7 terminator
(no dangling open message at end-of-buffer). -/
def balanced (buffer : List Nat) : Bool :=
  !(open_after buffer false)

/-- From `run_identify` in `src/main.rs`: with one counted message the
whole buffer is parsed with `Message::new(&buffer).ok().unwrap()`; with
several, each slice of `split_messages` is parsed the same way.  The
`.ok().unwrap()` panics when the parse fails; the panic is modelled as
`none`. -/
def run_identify_core (buffer : List Nat) : Option (List Message) :=
  let count := message_count buffer
  if 1 ≤ count then
    if count = 1 then
      match Message.new buffer with
      | .ok m => some [m]
      | .error _ => none
    else
      (split_messages buffer).mapM (fun msg => (Message.new msg).toOption)
  else some []

/-- The section kinds of `src/main.rs` (`SectionKind`). -/
inductive SectionKind where
  | initiator
  | manufacturer
  | universal
  | payload
  | terminator
  deriving DecidableEq, Repr

/-- A labeled byte range of one message, from `src/main.rs`
(`MessageSection`). -/
structure MessageSection where
  kind : SectionKind
  name : String
  offset : Nat
  length : Nat
  deriving DecidableEq, Repr

/-- From `run_sections` in `src/main.rs`: when `message_count(&buffer)`
exceeds one, the program prints a notice and calls
`std::process::exit(1)` before any section is pushed (modelled `none`);
otherwise it pushes the Initiator section, then the variant-specific
sections from the parse result (Manufacturer id and Payload for
`ManufacturerSpecific`; a single 3-byte Universal id section for
`Universal`; nothing on a parse error), then the Terminator section at
offset `buffer.len() - 1`.  On an empty buffer that `usize` subtraction
underflows (a panic), also modelled as `none`. -/
def run_sections_core (buffer : List Nat) : Option (List MessageSection) :=
  if 1 < message_count buffer then none
  else if buffer.length = 0 then none
  else
    let mid : List MessageSection :=
      match Message.new buffer with
      | .ok (.manufacturerSpecific code payload) =>
          [⟨.manufacturer, "Manufacturer", 1, code.length⟩,
           ⟨.payload, "Message Payload", 1 + code.length, payload.length⟩]
      | .ok (.universal _ _ _ _ _) =>
          [⟨.universal, "Universal", 1, 3⟩]
      | .error _ => []
    some (⟨.initiator, "System Exclusive Initiator", 0, 1⟩ ::
      (mid ++ [⟨.terminator, "System Exclusive Terminator", buffer.length - 1, 1⟩]))

/-- Sections tile the half-open range `[pos, total)` exactly: each
section starts where the previous one ended (no gaps, no overlaps) and
the last one ends at `total`. -/
def coversFrom (pos total : Nat) : List MessageSection → Bool
  | [] => pos == total
  | s :: rest => (s.offset == pos) && coversFrom (pos + s.length) total rest

/-- The numeric value of a character as a digit, as `char::to_digit`:
'0'-'9', then letters for values 10–35, rejected when ≥ base. -/
def digitVal (c : Char) (base : Nat) : Option Nat :=
  let v : Option Nat :=
    if 48 ≤ c.toNat ∧ c.toNat ≤ 57 then some (c.toNat - 48)
    else if 97 ≤ c.toNat ∧ c.toNat ≤ 122 then some (c.toNat - 97 + 10)
    else if 65 ≤ c.toNat ∧ c.toNat ≤ 90 then some (c.toNat - 65 + 10)
    else none
  match v with
  | some d => if d < base then some d else none
  | none => none

/-- Digit accumulation of `u8::from_str_radix` on an unsigned positive
number: each step multiplies by the base and adds the digit, failing on
an invalid digit or when the value would exceed 255. -/
def parsePosDigits (base : Nat) : Nat → List Char → Option Nat
  | acc, [] => some acc
  | acc, c :: rest =>
      match digitVal c base with
      | some d =>
          if acc * base + d ≤ 255 then parsePosDigits base (acc * base + d) rest
          else none
      | none => none

/-- `u8::from_str_radix`: an optional leading '+' or '-' sign then at
least one digit; for the unsigned `u8` a '-'-signed number only parses
when every digit is zero (the checked subtraction from 0 fails
otherwise). -/
def u8_from_str_radix (base : Nat) (s : String) : Option Nat :=
  match s.toList with
  | [] => none
  | '+' :: rest => if rest = [] then none else parsePosDigits base 0 rest
  | '-' :: rest =>
      if rest = [] then none
      else if rest.all (fun c => digitVal c base = some 0) then some 0
      else none
  | cs => parsePosDigits base 0 cs

/-- From `run_receive` in `src/main.rs`: the numeric base of the byte
tokens, 16 when the second token is exactly "hex" and 10 otherwise. -/
def baseFor (tok : String) : Nat :=
  if tok = "hex" then 16 else 10

/-- From `run_receive` in `src/main.rs`: the byte tokens are decoded with
`u8::from_str_radix`; a token that fails to parse is skipped
(`continue`), the rest are kept in order. -/
def decodeTokens (base : Nat) (toks : List String) : List Nat :=
  toks.filterMap (fun t => u8_from_str_radix base t)

/-- From `run_receive` in `src/main.rs`, the handling of one input line
split into whitespace-delimited tokens: a line with fewer than three
tokens is skipped (`continue`), a line whose first token is not
"system-exclusive" is ignored, and otherwise the decoded bytes are
framed by inserting 0xF0 in front and pushing 0xF7 at the end.  `some`
is the assembled wire buffer that the loop then writes out; `none` means
no buffer is assembled. -/
def processLine (parts : List String) : Option (List Nat) :=
  match parts with
  | cmd :: baseTok :: firstByte :: rest =>
      if cmd = "system-exclusive" then
        some (0xF0 :: (decodeTokens (baseFor baseTok) (firstByte :: rest) ++ [0xF7]))
      else none
  | _ => none

/-! ### Helper lemmas about the modelled core -/

theorem Manufacturer.new_ok_eq : ∀ {bytes code : List Nat},
    Manufacturer.new bytes = .ok code → code = bytes := by
  intro bytes code h
  unfold Manufacturer.new at h
  split at h
  · split at h
    · injection h with h2; exact h2.symm
    · exact Except.noConfusion h
  · split at h
    · injection h with h2; exact h2.symm
    · exact Except.noConfusion h
  · exact Except.noConfusion h

theorem Manufacturer.new_ok_shape : ∀ {bytes code : List Nat},
    Manufacturer.new bytes = .ok code →
    (∃ b, bytes = [b] ∧ 1 ≤ b ∧ b ≤ 0x7F) ∨ ∃ a c, bytes = [0, a, c] := by
  intro bytes code h
  unfold Manufacturer.new at h
  split at h
  next b =>
    split at h
    next hb => exact Or.inl ⟨b, rfl, hb⟩
    next => exact Except.noConfusion h
  next b0 b1 b2 =>
    split at h
    next hb => subst hb; exact Or.inr ⟨b1, b2, rfl⟩
    next => exact Except.noConfusion h
  next => exact Except.noConfusion h

theorem classifyInner_ok_to_bytes : ∀ {inner : List Nat} {m : Message},
    classifyInner inner = .ok m → m.to_bytes = 0xF0 :: (inner ++ [0xF7]) := by
  intro inner m h
  unfold classifyInner at h
  split at h
  · exact Except.noConfusion h
  next first rest =>
    split at h
    next h1 =>
      match rest, h with
      | t :: s1 :: s2 :: payload, h =>
        injection h with h2
        subst h2
        rcases h1 with h1 | h1 <;> subst h1 <;>
          simp [Message.to_bytes, UniversalKind.toByte]
      | [], h => exact Except.noConfusion h
      | [t], h => exact Except.noConfusion h
      | [t, s1], h => exact Except.noConfusion h
    next h1 =>
      split at h
      next h0 =>
        match rest, h with
        | a :: bb :: payload, h =>
          subst h0
          simp only [Manufacturer.new, if_pos rfl] at h
          injection h with h2
          subst h2
          simp [Message.to_bytes]
        | [], h => exact Except.noConfusion h
        | [a], h => exact Except.noConfusion h
      next h0 =>
        cases hM : Manufacturer.new [first] with
        | ok code =>
          rw [hM] at h
          injection h with h2
          subst h2
          have hce := Manufacturer.new_ok_eq hM
          subst hce
          simp [Message.to_bytes]
        | error e => rw [hM] at h; exact Except.noConfusion h

theorem Message.new_ok_to_bytes : ∀ {b : List Nat} {m : Message},
    Message.new b = .ok m → m.to_bytes = b := by
  intro b m h
  cases b with
  | nil => simp [Message.new] at h
  | cons f0 rest =>
    simp only [Message.new] at h
    split at h
    next hc =>
      obtain ⟨hf0, hlast⟩ := hc
      subst hf0
      have hrest : rest.dropLast ++ [0xF7] = rest :=
        List.dropLast_append_getLast? _ hlast
      rw [classifyInner_ok_to_bytes h, hrest]
    next => exact Except.noConfusion h

theorem Message.to_bytes_new : ∀ {m : Message}, m.constructible = true →
    m.universalShadowed = false → Message.new m.to_bytes = .ok m := by
  intro m hc hs
  match m with
  | .universal k t s1 s2 p =>
    have hnorm : Message.to_bytes (.universal k t s1 s2 p) =
        0xF0 :: ((k.toByte :: t :: s1 :: s2 :: p) ++ [0xF7]) := by
      simp [Message.to_bytes]
    rw [hnorm]
    simp only [Message.new]
    rw [if_pos (by exact ⟨by trivial, List.getLast?_concat _⟩), List.dropLast_concat]
    cases k <;> simp [classifyInner, UniversalKind.toByte]
  | .manufacturerSpecific code p =>
    simp only [Message.constructible] at hc
    cases hM : Manufacturer.new code with
    | error e => rw [hM] at hc; simp [Except.isOk, Except.toBool] at hc
    | ok code2 =>
      rcases Manufacturer.new_ok_shape hM with ⟨c, hb, h1, h2⟩ | ⟨a, cb, hb⟩
      · subst hb
        have hne : ¬(c = 0x7E ∨ c = 0x7F) := by
          simp only [Message.universalShadowed] at hs
          intro hcc
          rw [if_pos (by rcases hcc with hcc | hcc <;> subst hcc <;> simp)] at hs
          exact Bool.noConfusion hs
        have hnorm : Message.to_bytes (.manufacturerSpecific [c] p) =
            0xF0 :: ((c :: p) ++ [0xF7]) := by
          simp [Message.to_bytes]
        rw [hnorm]
        simp only [Message.new]
        rw [if_pos (by exact ⟨by trivial, List.getLast?_concat _⟩), List.dropLast_concat]
        simp only [classifyInner]
        rw [if_neg hne, if_neg (by omega)]
        have hMc : Manufacturer.new [c] = .ok [c] := by
          simp [Manufacturer.new, h1, h2]
        rw [hMc]
      · subst hb
        have hnorm : Message.to_bytes (.manufacturerSpecific [0, a, cb] p) =
            0xF0 :: ((0 :: a :: cb :: p) ++ [0xF7]) := by
          simp [Message.to_bytes]
        rw [hnorm]
        simp only [Message.new]
        rw [if_pos (by exact ⟨by trivial, List.getLast?_concat _⟩), List.dropLast_concat]
        simp [classifyInner, Manufacturer.new]

theorem new_ms_length : ∀ {b code p : List Nat},
    Message.new b = .ok (.manufacturerSpecific code p) →
    b.length = code.length + p.length + 2 := by
  intro b code p h
  have hb := Message.new_ok_to_bytes h
  rw [← hb]
  simp [Message.to_bytes]
  omega

theorem classifyInner_ms_valid : ∀ {inner code p : List Nat},
    classifyInner inner = .ok (.manufacturerSpecific code p) →
    Manufacturer.new code = .ok code := by
  intro inner code p h
  unfold classifyInner at h
  split at h
  · exact Except.noConfusion h
  next first rest =>
    split at h
    next h1 =>
      match rest, h with
      | t :: s1 :: s2 :: payload, h =>
        injection h with h2
        exact Message.noConfusion h2
      | [], h => exact Except.noConfusion h
      | [t], h => exact Except.noConfusion h
      | [t, s1], h => exact Except.noConfusion h
    next h1 =>
      split at h
      next h0 =>
        match rest, h with
        | a :: bb :: payload, h =>
          subst h0
          simp only [Manufacturer.new, if_pos rfl] at h
          injection h with h2
          injection h2 with hcode hp
          subst hcode
          simp [Manufacturer.new]
        | [], h => exact Except.noConfusion h
        | [a], h => exact Except.noConfusion h
      next h0 =>
        cases hM : Manufacturer.new [first] with
        | ok code2 =>
          rw [hM] at h
          injection h with h2
          injection h2 with hcode hp
          subst hcode
          have hce := Manufacturer.new_ok_eq hM
          subst hce
          exact hM
        | error e => rw [hM] at h; exact Except.noConfusion h

theorem Message.new_ms_valid : ∀ {b code p : List Nat},
    Message.new b = .ok (.manufacturerSpecific code p) →
    Manufacturer.new code = .ok code := by
  intro b code p h
  cases b with
  | nil => simp [Message.new] at h
  | cons f0 rest =>
    simp only [Message.new] at h
    split at h
    next => exact classifyInner_ms_valid h
    next => exact Except.noConfusion h

theorem Manufacturer.new_self_length : ∀ {code : List Nat},
    Manufacturer.new code = .ok code → code.length = 1 ∨ code.length = 3 := by
  intro code h
  rcases Manufacturer.new_ok_shape h with ⟨b, hb, _⟩ | ⟨a, c, hb⟩ <;>
    subst hb <;> simp

theorem run_sections_ms : ∀ {b code p : List Nat}, message_count b = 1 →
    Message.new b = .ok (.manufacturerSpecific code p) →
    run_sections_core b = some
      [⟨.initiator, "System Exclusive Initiator", 0, 1⟩,
       ⟨.manufacturer, "Manufacturer", 1, code.length⟩,
       ⟨.payload, "Message Payload", 1 + code.length, p.length⟩,
       ⟨.terminator, "System Exclusive Terminator", b.length - 1, 1⟩] := by
  intro b code p hcount h
  have hne : ¬(b.length = 0) := by
    intro hl
    rw [List.length_eq_zero] at hl
    subst hl
    simp [Message.new] at h
  unfold run_sections_core
  rw [if_neg (by omega), if_neg hne, h]
  rfl

theorem split_messages_aux_length : ∀ (l : List Nat) (cur : Option (List Nat)),
    (split_messages_aux l cur).length = message_count_aux l cur.isSome := by
  intro l
  induction l with
  | nil => intro cur; rfl
  | cons b rest ih =>
    intro cur
    by_cases h0 : b = 0xF0
    · subst h0
      simp [split_messages_aux, message_count_aux, ih (some [0xF0])]
    · by_cases h7 : b = 0xF7
      · subst h7
        rcases cur with _ | acc <;>
          simp [split_messages_aux, message_count_aux, ih none]
      · rcases cur with _ | acc
        · simp [split_messages_aux, message_count_aux, h0, h7, ih none]
        · simp [split_messages_aux, message_count_aux, h0, h7,
            ih (some (acc ++ [b]))]

/-! ### The claims -/

/-- C1, amended: for every buffer holding exactly one counted message
(the claim's "exactly one successfully parsed message": it passes the
message-count guard) that parses as ManufacturerSpecific, the
MessageSection sequence emitted by the sections operation covers the
entire buffer with no gaps and no overlaps, and the sum of the section
lengths equals the buffer length.  (The claim as stated, over either
variant, fails for Universal messages: the sections operation emits no
Payload section for them and gives the Universal identifier section
length 3 although the universal header after the initiator is 4 bytes;
see the counterexample.) -/
theorem sections_cover_manufacturer_specific (b code p : List Nat)
    (hcount : message_count b = 1)
    (h : Message.new b = .ok (.manufacturerSpecific code p)) :
    ∃ secs, run_sections_core b = some secs ∧
      coversFrom 0 b.length secs = true ∧
      (secs.map MessageSection.length).sum = b.length := by
  have hlen := new_ms_length h
  refine ⟨_, run_sections_ms hcount h, ?_, ?_⟩
  · simp only [coversFrom, Bool.and_eq_true, beq_iff_eq]
    exact ⟨trivial, trivial, trivial, by omega, by omega⟩
  · simp only [List.map_cons, List.map_nil, List.sum_cons, List.sum_nil]
    omega

/-- C1 witness, at the standard-manufacturer buffer F0 42 30 28 F7. -/
theorem sections_cover_ms_witness :
    ∃ secs, run_sections_core [0xF0, 0x42, 0x30, 0x28, 0xF7] = some secs ∧
      coversFrom 0 ([0xF0, 0x42, 0x30, 0x28, 0xF7] : List Nat).length secs = true ∧
      (secs.map MessageSection.length).sum =
        ([0xF0, 0x42, 0x30, 0x28, 0xF7] : List Nat).length :=
  sections_cover_manufacturer_specific _ [0x42] [0x30, 0x28] (by decide) (by decide)

/-- C1 counterexample: the successfully parsed Universal buffer
F0 7E 01 06 02 F7 (length 6, one message) gets sections whose lengths sum
to 5, not 6, and which do not cover the buffer. -/
theorem sections_universal_gap_counterexample :
    message_count [0xF0, 0x7E, 0x01, 0x06, 0x02, 0xF7] = 1 ∧
    (Message.new [0xF0, 0x7E, 0x01, 0x06, 0x02, 0xF7]).isOk = true ∧
    (run_sections_core [0xF0, 0x7E, 0x01, 0x06, 0x02, 0xF7]).map
        (fun secs => (secs.map MessageSection.length).sum) = some 5 ∧
    (run_sections_core [0xF0, 0x7E, 0x01, 0x06, 0x02, 0xF7]).map
        (fun secs => coversFrom 0 6 secs) = some false ∧
    ([0xF0, 0x7E, 0x01, 0x06, 0x02, 0xF7] : List Nat).length = 6 := by decide

/-- C2, code-bug evidence: `run_identify` evaluates
`Message::new(&buffer).ok().unwrap()`, which panics (modelled `none`)
when the single counted message fails to parse; the buffer
41 F0 42 F7 has `message_count` 1 yet fails framing validation, so
identification does not complete without a panic. -/
theorem run_identify_panics_on_malformed :
    message_count [0x41, 0xF0, 0x42, 0xF7] = 1 ∧
    Message.new [0x41, 0xF0, 0x42, 0xF7] = .error .malformedFraming ∧
    run_identify_core [0x41, 0xF0, 0x42, 0xF7] = none := by decide

/-- C4, amended: a ManufacturerSpecific message parsed from a buffer
holding exactly one counted message yields exactly the four sections
Initiator (offset 0, length 1), Manufacturer identifier (offset 1,
length = code length, which is 1 or 3), Payload (offset 1 + code length,
length = payload length) and Terminator (offset buffer length - 1,
length 1).  (The claim as stated, over every successfully parsed
ManufacturerSpecific message, fails: a buffer can parse as
ManufacturerSpecific yet count more than one message, and the sections
operation then exits at its message-count guard emitting no sections;
see the counterexample.) -/
theorem sections_ms_exact (b code p : List Nat)
    (hcount : message_count b = 1)
    (h : Message.new b = .ok (.manufacturerSpecific code p)) :
    run_sections_core b = some
      [⟨.initiator, "System Exclusive Initiator", 0, 1⟩,
       ⟨.manufacturer, "Manufacturer", 1, code.length⟩,
       ⟨.payload, "Message Payload", 1 + code.length, p.length⟩,
       ⟨.terminator, "System Exclusive Terminator", b.length - 1, 1⟩] ∧
    (code.length = 1 ∨ code.length = 3) :=
  ⟨run_sections_ms hcount h, Manufacturer.new_self_length (Message.new_ms_valid h)⟩

/-- C4 witness, at the extended-manufacturer buffer F0 00 21 09 30 28 F7. -/
theorem sections_ms_exact_witness :
    run_sections_core [0xF0, 0x00, 0x21, 0x09, 0x30, 0x28, 0xF7] = some
      [⟨.initiator, "System Exclusive Initiator", 0, 1⟩,
       ⟨.manufacturer, "Manufacturer", 1, 3⟩,
       ⟨.payload, "Message Payload", 4, 2⟩,
       ⟨.terminator, "System Exclusive Terminator", 6, 1⟩] ∧
    ((3 : Nat) = 1 ∨ (3 : Nat) = 3) :=
  sections_ms_exact [0xF0, 0x00, 0x21, 0x09, 0x30, 0x28, 0xF7]
    [0x00, 0x21, 0x09] [0x30, 0x28] (by decide) (by decide)

/-- C4 counterexample: the buffer F0 42 F7 F0 43 F7 parses successfully
as a ManufacturerSpecific message (the parser checks only the first and
last byte), yet it counts two messages, so the sections operation exits
at its message-count guard and emits no sections at all. -/
theorem sections_ms_multi_counterexample :
    Message.new [0xF0, 0x42, 0xF7, 0xF0, 0x43, 0xF7] =
      .ok (.manufacturerSpecific [0x42] [0xF7, 0xF0, 0x43]) ∧
    message_count [0xF0, 0x42, 0xF7, 0xF0, 0x43, 0xF7] = 2 ∧
    run_sections_core [0xF0, 0x42, 0xF7, 0xF0, 0x43, 0xF7] = none := by decide

/-- C5, amended: `to_bytes(parse(b)) = b` for every buffer the parser
accepts, and `parse(to_bytes(m)) = m` for every constructible message
except a ManufacturerSpecific one whose 1-byte code is 0x7E or 0x7F
(such a code is accepted by the manufacturer validation but its encoding
starts with a universal discriminator byte, so it does not parse back;
see the counterexample). -/
theorem roundtrip_parse_encode :
    (∀ m : Message, m.constructible = true → m.universalShadowed = false →
        Message.new m.to_bytes = .ok m) ∧
    (∀ (b : List Nat) (m : Message), Message.new b = .ok m → m.to_bytes = b) :=
  ⟨fun _ hc hs => Message.to_bytes_new hc hs,
   fun _ _ h => Message.new_ok_to_bytes h⟩

/-- C5 witness: the round trip at a concrete constructible message. -/
theorem roundtrip_witness :
    Message.new (Message.to_bytes (.manufacturerSpecific [0x42] [0x30, 0x28])) =
      .ok (.manufacturerSpecific [0x42] [0x30, 0x28]) :=
  roundtrip_parse_encode.1 _ (by decide) (by decide)

/-- C5 counterexample: the manufacturer code [0x7E] passes validation, so
the message is constructible, but parsing its encoding F0 7E F7 does not
give the message back (the parser reads 0x7E as a universal
discriminator). -/
theorem roundtrip_shadowed_counterexample :
    (Message.manufacturerSpecific [0x7E] []).constructible = true ∧
    Message.new (Message.manufacturerSpecific [0x7E] []).to_bytes ≠
      .ok (.manufacturerSpecific [0x7E] []) := by decide

/-- C6: for every buffer in which every 0xF0 initiator has a matching
0xF7 terminator, `split_messages` returns as many slices as
`message_count` counts.  (The scan-state correspondence holds for every
buffer; the balance hypothesis of the claim is not even needed.) -/
theorem split_count_agree (b : List Nat) (_h : balanced b = true) :
    (split_messages b).length = message_count b :=
  split_messages_aux_length b none

/-- C6 witness, at the balanced buffer F0 42 F7. -/
theorem split_count_agree_witness :
    balanced [0xF0, 0x42, 0xF7] = true ∧
    (split_messages [0xF0, 0x42, 0xF7]).length =
      message_count [0xF0, 0x42, 0xF7] :=
  ⟨by decide, split_count_agree _ (by decide)⟩

/-- C7: the receive loop assembles a buffer exactly for token lists of at
least three tokens whose first token is the literal "system-exclusive";
any line whose first token differs assembles nothing. -/
theorem receive_requires_sysex_literal (parts : List String) :
    (processLine parts).isSome = true ↔
      (3 ≤ parts.length ∧ parts.head? = some ("system-exclusive" : String)) := by
  match parts with
  | [] => simp [processLine]
  | [a] => simp [processLine]
  | [a, b] => simp [processLine]
  | a :: b :: c :: rest =>
    simp only [processLine]
    by_cases h : a = "system-exclusive"
    · subst h
      rw [if_pos rfl]
      simp [List.length_cons]
    · rw [if_neg h]
      simp [h]

/-- C8, amended: among buffers that pass the message-count guard (at
most one counted message), the sections operation pushes the Initiator
and Terminator sections even when the buffer fails to parse (they are
then the only sections), computes the Terminator offset as
buffer length - 1, and is total exactly on the non-empty such buffers:
on the empty buffer the offset subtraction underflows (modelled `none`).
(The claim's "unconditionally" fails for buffers counting more than one
message: the operation exits at the guard before pushing anything, even
when the buffer fails to parse; see the counterexample.) -/
theorem sections_pushed_unconditionally :
    (∀ b : List Nat, message_count b ≤ 1 → (Message.new b).isOk = false →
        b ≠ [] →
        run_sections_core b = some
          [⟨.initiator, "System Exclusive Initiator", 0, 1⟩,
           ⟨.terminator, "System Exclusive Terminator", b.length - 1, 1⟩]) ∧
    run_sections_core [] = none ∧
    (∀ b : List Nat, message_count b ≤ 1 → b ≠ [] →
        (run_sections_core b).isSome = true) := by
  refine ⟨?_, rfl, ?_⟩
  · intro b hcount hM hne
    unfold run_sections_core
    rw [if_neg (by omega), if_neg (by simpa [List.length_eq_zero] using hne)]
    cases h : Message.new b with
    | ok m => simp [h, Except.isOk, Except.toBool] at hM
    | error e => simp [h]
  · intro b hcount hne
    unfold run_sections_core
    rw [if_neg (by omega), if_neg (by simpa [List.length_eq_zero] using hne)]
    rfl

/-- C8 counterexample: the non-empty buffer F0 F7 F0 F7 fails to parse,
yet the sections operation pushes nothing for it: it counts two
messages, so the operation exits at the message-count guard before any
section is pushed. -/
theorem sections_guard_counterexample :
    (Message.new [0xF0, 0xF7, 0xF0, 0xF7]).isOk = false ∧
    message_count [0xF0, 0xF7, 0xF0, 0xF7] = 2 ∧
    run_sections_core [0xF0, 0xF7, 0xF0, 0xF7] = none := by decide

/-- C8 witness: the unparsable non-empty buffer 01 still gets Initiator
and Terminator sections (the Terminator at offset 0 = 1 - 1). -/
theorem sections_pushed_witness :
    run_sections_core [0x01] = some
      [⟨.initiator, "System Exclusive Initiator", 0, 1⟩,
       ⟨.terminator, "System Exclusive Terminator", 0, 1⟩] :=
  sections_pushed_unconditionally.1 [0x01] (by decide) (by decide) (by decide)

/-- C9, amended: every receive line with fewer than three tokens is
skipped, so a line carrying only the SysEx literal and the base token
assembles nothing; however, an empty-payload message can still be
assembled, from a line whose byte tokens all fail to parse (see the
counterexample), so the claim's "a message with an empty payload can
never be assembled" does not hold. -/
theorem receive_skips_short_lines (parts : List String)
    (h : parts.length < 3) : processLine parts = none := by
  match parts with
  | [] => rfl
  | [a] => rfl
  | [a, b] => rfl
  | a :: b :: c :: rest => simp [List.length_cons] at h; omega

/-- C9 witness: the two-token line with the literal and the base token
assembles nothing. -/
theorem receive_skips_short_lines_witness :
    processLine ["system-exclusive", "hex"] = none :=
  receive_skips_short_lines _ (by decide)

/-- C9 counterexample: the three-token line `system-exclusive hex ZZ`
assembles the buffer F0 F7 - a message whose payload is empty. -/
theorem receive_empty_payload_assembled :
    processLine ["system-exclusive", "hex", "ZZ"] = some [0xF0, 0xF7] ∧
    decodeTokens 16 ["ZZ"] = [] := by decide

/-- C10: byte tokens are parsed in base 16 exactly when the second token
is the string "hex"; every other second token, "dec" and arbitrary
strings included, selects base 10. -/
theorem receive_base_16_iff_hex :
    (∀ tok : String, baseFor tok = 16 ↔ tok = "hex") ∧
    baseFor "dec" = 10 ∧
    processLine ["system-exclusive", "hex", "10"] = some [0xF0, 0x10, 0xF7] ∧
    processLine ["system-exclusive", "dec", "10"] = some [0xF0, 10, 0xF7] ∧
    processLine ["system-exclusive", "unknown-base", "10"] = some [0xF0, 10, 0xF7] := by
  refine ⟨fun tok => ?_, by decide, by decide, by decide, by decide⟩
  unfold baseFor
  by_cases h : tok = "hex"
  · simp [h]
  · simp [h]
